import Mathlib

/-!
# Verification of `azlogconvert` (azure-log-converter)

A shallow embedding of the core of `src/azlogconvert.py`: the tick clock,
the tag normalizer, the header matcher, the entry-builder state machine
(`convert_records`), and the grouper (`split_records`).

Python strings are modelled as `List Char`; Python generators consumed
eagerly by the caller are modelled as lists; raised `ValueError`s are
modelled with `Except` over an explicit error type that distinguishes the
two raise sites.
-/

set_option autoImplicit false

namespace AzLogConvert

/-- The three log levels of `LOG_LEVELS = ("info", "warn", "fail")`, in tuple order. -/
inductive Level where
  | info
  | warn
  | fail
deriving DecidableEq, Repr

/-- The name string of a level, as it appears in `LOG_LEVELS`. -/
def levelStr : Level → List Char
  | .info => "info".toList
  | .warn => "warn".toList
  | .fail => "fail".toList

/-- The header prefix `f"{level}: "` tested by `LogRecord.entry_header`. -/
def headerMark (l : Level) : List Char :=
  levelStr l ++ ": ".toList

/-- Whitespace in the sense of `str.isspace` on the ASCII range, the character class removed by
Python's `str.strip()` with no arguments.  (Python also strips some non-ASCII
Unicode whitespace; all data in this development is ASCII, where the two agree.) -/
def isPySpace (c : Char) : Bool :=
  c = ' ' ∨ c = '\t' ∨ c = '\n' ∨ c = '\r' ∨ c = '\x0b' ∨ c = '\x0c'

/-- Python `str.strip()`: drop leading and trailing whitespace. -/
def pyStrip (l : List Char) : List Char :=
  ((l.dropWhile isPySpace).reverse.dropWhile isPySpace).reverse

/-- The scan of `re.sub` for the pattern `r'\[\d]'` with empty replacement: at each
position, if `[` + digit + `]` matches there, delete it and continue after the
match, else keep the character and advance one position.  The fuel argument only
makes the recursion structural; one unit is spent per position visited, and a
visit consumes at least one character, so `fuel = length` never runs out. -/
def removeBracketsFuel : Nat → List Char → List Char
  | _, [] => []
  | 0, l => l
  | fuel + 1, c :: rest =>
    match rest with
    | b :: ']' :: rest' =>
      if c = '[' ∧ b.isDigit then removeBracketsFuel fuel rest'
      else c :: removeBracketsFuel fuel rest
    | _ => c :: removeBracketsFuel fuel rest

/-- Bracket-marker removal `BRACKET_PATTERN.sub("", source)` for `BRACKET_PATTERN = re.compile(r'\[\d]')`:
remove every occurrence of `[` + one digit + `]`, left to right, non-overlapping. -/
def removeBrackets (l : List Char) : List Char :=
  removeBracketsFuel l.length l

/-- Python `s.replace(".", "_")`. -/
def replaceDots (l : List Char) : List Char :=
  l.map fun c => if c = '.' then '_' else c

/-- Tag normalization `normalize_tag(source)`:
`BRACKET_PATTERN.sub("", source).replace(".", "_").strip()`. -/
def normalize_tag (source : List Char) : List Char :=
  pyStrip (replaceDots (removeBrackets source))

/-- Parsed header `LogEntryHeader` (level + remainder of the message). -/
structure LogEntryHeader where
  level : Level
  message : List Char
deriving DecidableEq, Repr

/-- The body of the `LogRecord.entry_header` property, which depends only on the
message: try each level of `LOG_LEVELS` in order; on the first `msg.startswith(f"{level}: ")`
return that level together with `msg[len(level) + 2:]`; otherwise `None`. -/
def matchHeader (msg : List Char) : Option LogEntryHeader :=
  if (headerMark .info).isPrefixOf msg then
    some ⟨.info, msg.drop ((levelStr .info).length + 2)⟩
  else if (headerMark .warn).isPrefixOf msg then
    some ⟨.warn, msg.drop ((levelStr .warn).length + 2)⟩
  else if (headerMark .fail).isPrefixOf msg then
    some ⟨.fail, msg.drop ((levelStr .fail).length + 2)⟩
  else
    none

/-- Round the fraction `a / b` (with `b > 0`) to the nearest integer, ties to
even: the rounding used both by IEEE-754 round-to-nearest (on the scaled
significand, where the integers being chosen between are the significands
themselves) and by Python's `round()` / `timedelta`'s float-microseconds
handling.  Everything meeting this function is non-negative, so it is stated on
`ℕ`. -/
def rne (a b : ℕ) : ℕ :=
  if 2 * (a % b) < b then a / b
  else if b < 2 * (a % b) then a / b + 1
  else if a / b % 2 = 0 then a / b else a / b + 1

/-- Base-2 logarithm with explicit fuel, spent once per halving, so that the
definition is structurally recursive and evaluates in the kernel;
`log2Fuel_spec` shows any `fuel ≥ n` is enough. -/
def log2Fuel : ℕ → ℕ → ℕ
  | 0, _ => 0
  | fuel + 1, n => if 2 ≤ n then log2Fuel fuel (n / 2) + 1 else 0

/-- Floor of the base-2 logarithm (`natLog2_spec`: for `n ≥ 1`,
`2 ^ natLog2 n ≤ n < 2 ^ (natLog2 n + 1)`). -/
def natLog2 (n : ℕ) : ℕ :=
  log2Fuel n n

/-- The binade exponent `E = ⌊log2 (n / 10)⌋` of the quotient `n / 10` for
`n ≥ 1`: with `a = ⌊log2 n⌋` the quotient lies in `[2 ^ (a - 4), 2 ^ (a - 2))`,
so `E` is `a - 3` when `n / 10 ≥ 2 ^ (a - 3)` — tested in integers as
`10 * 2 ^ a ≤ 8 * n` — and `a - 4` otherwise. -/
def binExpDiv10 (n : ℕ) : ℤ :=
  if 10 * 2 ^ natLog2 n ≤ 8 * n then (natLog2 n : ℤ) - 3 else (natLog2 n : ℤ) - 4

/-- The integer significand of the correctly rounded binary64 quotient `n / 10`
(`n ≥ 1`): the exact quotient is scaled into `[2 ^ 52, 2 ^ 53)` as
`(n / 10) / 2 ^ (E - 52)` — the fraction `N / D` below, kept exact with the
power of two on whichever side keeps it integral — and rounded to the nearest
integer, ties to even.  The resulting double is `sigDiv10 n * 2 ^ (E - 52)`.
(`Int.toNat` clamps a negative exponent to `0`, placing the power on the other
side of the fraction.) -/
def sigDiv10 (n : ℕ) : ℕ :=
  rne (n * 2 ^ (52 - binExpDiv10 n).toNat) (10 * 2 ^ (binExpDiv10 n - 52).toNat)

/-- The whole number of microseconds stored by
`datetime.timedelta(microseconds=ticks / 10)`.  In CPython, `ticks / 10` is
int-by-int true division, which returns the correctly rounded (nearest, ties to
even) binary64 value of the exact quotient — modelled by `sigDiv10`/`binExpDiv10`
as the exact rational `m * 2 ^ (E - 52)` — and `timedelta` rounds a float
`microseconds` argument to a whole number of microseconds with Python `round()`
semantics, nearest with ties to even: the outer `rne`.  The quotient of any
positive `ticks` is in binary64's normal range (`ticks / 10 ≥ 0.1 ≫ 2 ^ (-1022)`);
for astronomically large `ticks` the real program raises `OverflowError` (float
range) or exceeds `timedelta`/`datetime` bounds, which the spec declares
undefined behavior and out of scope — the model stays total there. -/
def ticksToMicros (n : ℕ) : ℕ :=
  if n = 0 then 0
  else rne (sigDiv10 n * 2 ^ (binExpDiv10 n - 52).toNat) (2 ^ (52 - binExpDiv10 n).toNat)

/-- Raw input row `LogRecord` (tick count + message). -/
structure LogRecord where
  ticks : ℕ
  message : List Char
deriving DecidableEq, Repr

/-- Timestamp `LogRecord.occurred_at`, expressed as elapsed microseconds since
the epoch `datetime.datetime(1, 1, 1)` = 0001-01-01T00:00:00 (localized to UTC):
`datetime.datetime(1, 1, 1) + datetime.timedelta(microseconds=self.ticks / 10)`.
The float division and `timedelta`'s microsecond rounding are modelled exactly
by `ticksToMicros`, including the binary64 artifacts: quotients whose rounded
double lands on a half-integer, and quotients at or above `2 ^ 53`
(`ticksToMicros_float_artifacts` checks two such values against CPython). -/
def LogRecord.occurred_at (r : LogRecord) : ℤ :=
  (ticksToMicros r.ticks : ℤ)

/-- Header recognition `LogRecord.entry_header` (a `@property` in the source). -/
def LogRecord.entry_header (r : LogRecord) : Option LogEntryHeader :=
  matchHeader r.message

/-- Immutable closed entry `LogEntry`.  Its `occurred_at` is in elapsed
microseconds since the 0001-01-01T00:00:00Z epoch, matching
`LogRecord.occurred_at`. -/
structure LogEntry where
  occurred_at : ℤ
  tag : List Char
  level : Level
  message : List Char
deriving DecidableEq, Repr

/-- The two `ValueError` raise sites of the conversion core, told apart by their
payloads: `orphan` is `convert_records`'s `Entry: {message} without a header`,
`emptyEntry` is `OpenedLogEntry.close`'s `Entry {tag} at {occurred_at} has no
messages`. -/
inductive ConvError where
  | orphan (message : List Char)
  | emptyEntry (tag : List Char) (occurred_at : ℤ)
deriving DecidableEq, Repr

deriving instance DecidableEq for Except

/-- Mutable accumulator `OpenedLogEntry` for the entry currently being
built.  `__init__` takes the parsed header and the record's instant and starts
with an empty message list. -/
structure OpenedLogEntry where
  level : Level
  tag : List Char
  occurred_at : ℤ
  messages : List (List Char)
deriving DecidableEq, Repr

/-- Constructor `OpenedLogEntry.__init__(header, occurred_at)`. -/
def OpenedLogEntry.init (header : LogEntryHeader) (occurred_at : ℤ) : OpenedLogEntry :=
  { level := header.level
    tag := normalize_tag header.message
    occurred_at := occurred_at
    messages := [] }

/-- Line accumulation `OpenedLogEntry.add_message(message)`: append to `self.__messages`. -/
def OpenedLogEntry.add_message (o : OpenedLogEntry) (message : List Char) : OpenedLogEntry :=
  { o with messages := o.messages ++ [message] }

/-- Closing `OpenedLogEntry.close()`: raise `ValueError` when no messages were
accumulated, else build the `LogEntry` with `"\n".join(messages).strip()`. -/
def OpenedLogEntry.close (o : OpenedLogEntry) : Except ConvError LogEntry :=
  if o.messages = [] then
    .error (.emptyEntry o.tag o.occurred_at)
  else
    .ok ⟨o.occurred_at, o.tag, o.level, pyStrip (List.intercalate "\n".toList o.messages)⟩

/-- The loop of `convert_records`, with the generator's `opened` local made
explicit.  The generator is consumed to exhaustion by its caller
(`split_records`), so it is modelled as the eagerly-built list of yielded
entries, with a raised `ValueError` short-circuiting into `Except.error`.
Faithful to the source, the loop body ends after `opened = OpenedLogEntry(...)`;
when the input runs out the `opened` accumulator is simply discarded — there is
no close/yield after the loop. -/
def convertLoop (opened : Option OpenedLogEntry) : List LogRecord → Except ConvError (List LogEntry)
  | [] => .ok []
  | r :: rest =>
    match r.entry_header with
    | none =>
      match opened with
      | none => .error (.orphan r.message)
      | some o => convertLoop (some (o.add_message r.message)) rest
    | some header =>
      match opened with
      | none => convertLoop (some (.init header r.occurred_at)) rest
      | some o =>
        match o.close with
        | .error err => .error err
        | .ok e =>
          match convertLoop (some (.init header r.occurred_at)) rest with
          | .error err => .error err
          | .ok es => .ok (e :: es)

/-- Entry builder `convert_records(source)`: run the state machine over the
records, starting with `opened = None`. -/
def convert_records (source : List LogRecord) : Except ConvError (List LogEntry) :=
  convertLoop none source

/-- The number of records whose message is recognized as a header line. -/
def countHeaders (source : List LogRecord) : ℕ :=
  source.countP fun r => r.entry_header.isSome

/-- Insert one entry into the grouped mapping, modelling
`groups[entry.tag].append(entry)` on a `defaultdict(list)`: dict keys keep
insertion order, a missing tag gets a fresh group at the end. -/
def addToGroups : List (List Char × List LogEntry) → LogEntry → List (List Char × List LogEntry)
  | [], e => [(e.tag, [e])]
  | (k, v) :: rest, e =>
    if k = e.tag then (k, v ++ [e]) :: rest
    else (k, v) :: addToGroups rest e

/-- Grouper `split_records(source)`: group the entries by tag, as an association list
in key-insertion order (the iteration order of the Python dict). -/
def split_records (source : List LogEntry) : List (List Char × List LogEntry) :=
  source.foldl addToGroups []

/-- Look a tag up in the grouped mapping (`groups[tag]`, defaulting to the
empty list as `defaultdict(list)` does for an absent key). -/
def lookupGroups : List (List Char × List LogEntry) → List Char → List LogEntry
  | [], _ => []
  | (k, v) :: rest, t => if k = t then v else lookupGroups rest t

/-! ## Helper lemmas -/

theorem log2Fuel_spec :
    ∀ (fuel n : ℕ), 1 ≤ n → n ≤ fuel →
      2 ^ log2Fuel fuel n ≤ n ∧ n < 2 ^ (log2Fuel fuel n + 1) := by
  intro fuel
  induction fuel with
  | zero => intro n h1 h2; omega
  | succ f ih =>
    intro n h1 h2
    by_cases h : 2 ≤ n
    · have hrec := ih (n / 2) (by omega) (by omega)
      rw [log2Fuel, if_pos h]
      have hp1 : (2 : ℕ) ^ (log2Fuel f (n / 2) + 1) = 2 * 2 ^ log2Fuel f (n / 2) := by
        rw [pow_succ]; ring
      have hp2 : (2 : ℕ) ^ (log2Fuel f (n / 2) + 1 + 1) =
          2 * 2 ^ (log2Fuel f (n / 2) + 1) := by
        rw [pow_succ]; ring
      omega
    · rw [log2Fuel, if_neg h]
      norm_num
      omega

theorem natLog2_spec (n : ℕ) (h : 1 ≤ n) :
    2 ^ natLog2 n ≤ n ∧ n < 2 ^ (natLog2 n + 1) :=
  log2Fuel_spec n n h le_rfl

theorem natLog2_eq {n a : ℕ} (h1 : 2 ^ a ≤ n) (h2 : n < 2 ^ (a + 1)) :
    natLog2 n = a := by
  have hn : 1 ≤ n := le_trans (Nat.one_le_two_pow) h1
  obtain ⟨l1, l2⟩ := natLog2_spec n hn
  rcases Nat.lt_trichotomy (natLog2 n) a with h | h | h
  · have hle : (2 : ℕ) ^ (natLog2 n + 1) ≤ 2 ^ a := Nat.pow_le_pow_right (by norm_num) h
    omega
  · exact h
  · have hle : (2 : ℕ) ^ (a + 1) ≤ 2 ^ natLog2 n := Nat.pow_le_pow_right (by norm_num) h
    omega

theorem rne_exact {a b : ℕ} (hb : 0 < b) (h : b ∣ a) : rne a b = a / b := by
  obtain ⟨c, rfl⟩ := h
  rw [rne, Nat.mul_mod_right]
  simp [hb]

/-- Microsecond-aligned tick counts below the 53-bit significand limit convert
exactly: the quotient `(10 * k) / 10 = k` is an integer representable in
binary64, correctly rounded division returns it unchanged, and `timedelta`'s
rounding leaves a whole number of microseconds alone. -/
theorem ticksToMicros_exact (k : ℕ) (h1 : 1 ≤ k) (h2 : k < 2 ^ 53) :
    ticksToMicros (10 * k) = k := by
  have hn0 : 10 * k ≠ 0 := by omega
  have hp53 : (2 : ℕ) ^ 53 = 9007199254740992 := by norm_num
  obtain ⟨hlow, hup⟩ := natLog2_spec (10 * k) (by omega)
  have ha56 : natLog2 (10 * k) ≤ 56 := by
    by_contra hgt
    push_neg at hgt
    have h57 : (2 : ℕ) ^ 57 ≤ 2 ^ natLog2 (10 * k) :=
      Nat.pow_le_pow_right (by norm_num) hgt
    have h57v : (2 : ℕ) ^ 57 = 144115188075855872 := by norm_num
    omega
  rw [ticksToMicros, if_neg hn0, sigDiv10, binExpDiv10]
  set a := natLog2 (10 * k) with ha
  by_cases htest : 10 * 2 ^ a ≤ 8 * (10 * k)
  · rw [if_pos htest]
    have ha55 : a ≤ 55 := by
      by_contra hgt
      push_neg at hgt
      have ha' : a = 56 := by omega
      rw [ha'] at htest
      have h56v : (2 : ℕ) ^ 56 = 72057594037927936 := by norm_num
      omega
    have ht1 : ((52 : ℤ) - ((a : ℤ) - 3)).toNat = 55 - a := by omega
    have ht2 : (((a : ℤ) - 3) - 52).toNat = 0 := by omega
    rw [ht1, ht2]
    simp only [pow_zero, mul_one, mul_assoc]
    rw [rne_exact (by norm_num)
      (⟨k * 2 ^ (55 - a), rfl⟩ : (10 : ℕ) ∣ 10 * (k * 2 ^ (55 - a)))]
    rw [Nat.mul_div_cancel_left _ (by norm_num : 0 < 10)]
    rw [rne_exact (pow_pos (by norm_num) _)
      (⟨k, mul_comm k (2 ^ (55 - a))⟩ : (2 : ℕ) ^ (55 - a) ∣ k * 2 ^ (55 - a))]
    exact Nat.mul_div_cancel k (pow_pos (by norm_num) _)
  · rw [if_neg htest]
    have ht1 : ((52 : ℤ) - ((a : ℤ) - 4)).toNat = 56 - a := by omega
    have ht2 : (((a : ℤ) - 4) - 52).toNat = 0 := by omega
    rw [ht1, ht2]
    simp only [pow_zero, mul_one, mul_assoc]
    rw [rne_exact (by norm_num)
      (⟨k * 2 ^ (56 - a), rfl⟩ : (10 : ℕ) ∣ 10 * (k * 2 ^ (56 - a)))]
    rw [Nat.mul_div_cancel_left _ (by norm_num : 0 < 10)]
    rw [rne_exact (pow_pos (by norm_num) _)
      (⟨k, mul_comm k (2 ^ (56 - a))⟩ : (2 : ℕ) ^ (56 - a) ∣ k * 2 ^ (56 - a))]
    exact Nat.mul_div_cancel k (pow_pos (by norm_num) _)

theorem pyStrip_eq_rdropWhile (l : List Char) :
    pyStrip l = List.rdropWhile isPySpace (List.dropWhile isPySpace l) :=
  rfl

theorem dropWhile_pyStrip (l : List Char) :
    List.dropWhile isPySpace (pyStrip l) = pyStrip l := by
  rw [List.dropWhile_eq_self_iff]
  intro hl
  have hpre : pyStrip l <+: List.dropWhile isPySpace l :=
    List.rdropWhile_prefix _ _
  have hlen : 0 < (List.dropWhile isPySpace l).length := lt_of_lt_of_le hl hpre.length_le
  have hget := List.IsPrefix.getElem hpre (show (0 : ℕ) < (pyStrip l).length from hl)
  have hnot := List.dropWhile_get_zero_not isPySpace l hlen
  simp only [List.get_eq_getElem] at hnot ⊢
  rw [← hget] at hnot
  exact hnot

theorem pyStrip_idempotent (l : List Char) : pyStrip (pyStrip l) = pyStrip l := by
  conv_lhs => rw [pyStrip_eq_rdropWhile]
  rw [dropWhile_pyStrip, pyStrip_eq_rdropWhile, List.rdropWhile_idempotent]

theorem mem_of_mem_pyStrip {c : Char} {l : List Char} (h : c ∈ pyStrip l) : c ∈ l := by
  rw [pyStrip_eq_rdropWhile] at h
  have h1 := ( List.rdropWhile_prefix isPySpace (List.dropWhile isPySpace l)).sublist.subset h
  exact (List.dropWhile_suffix isPySpace).sublist.subset h1

theorem replaceDots_no_dot (l : List Char) : ∀ c ∈ replaceDots l, c ≠ '.' := by
  intro c hc
  simp only [replaceDots, List.mem_map] at hc
  obtain ⟨a, _, rfl⟩ := hc
  by_cases ha : a = '.' <;> simp [ha]

theorem replaceDots_eq_self {l : List Char} (h : ∀ c ∈ l, c ≠ '.') : replaceDots l = l := by
  unfold replaceDots
  conv_rhs => rw [← List.map_id l]
  exact List.map_congr_left fun a ha => if_neg (h a ha)

theorem normalize_tag_no_dot (s : List Char) : ∀ c ∈ normalize_tag s, c ≠ '.' :=
  fun c hc => replaceDots_no_dot _ c (mem_of_mem_pyStrip hc)

theorem headerMark_injective : ∀ l l' : Level, headerMark l = headerMark l' → l = l' := by
  intro l l' h
  cases l <;> cases l' <;> first | rfl | exact absurd h (by decide)

theorem headerMark_exclusive {msg : List Char} {l l' : Level}
    (h : (headerMark l).isPrefixOf msg = true)
    (h' : (headerMark l').isPrefixOf msg = true) : l = l' := by
  have hlen : (headerMark l).length = (headerMark l').length := by
    cases l <;> cases l' <;> rfl
  rw [ List.isPrefixOf_iff_prefix] at h h'
  exact headerMark_injective l l'
    (( List.prefix_of_prefix_length_le h h' (le_of_eq hlen)).eq_of_length hlen)

theorem matchHeader_eq_of_isPrefixOf {msg : List Char} {l : Level}
    (h : (headerMark l).isPrefixOf msg = true) :
    matchHeader msg = some ⟨l, msg.drop 6⟩ := by
  unfold matchHeader
  split_ifs with h1 h2 h3
  · rw [headerMark_exclusive h h1]
    rfl
  · rw [headerMark_exclusive h h2]
    rfl
  · rw [headerMark_exclusive h h3]
    rfl
  · cases l
    · exact absurd h h1
    · exact absurd h h2
    · exact absurd h h3

/-! ## Claim theorems -/

/-- C3 (counterexample): `normalize` is *not* idempotent.  On `"[[1]1]"` the
single left-to-right removal pass deletes the inner `[1]`, and the surviving
characters reassemble into a fresh `[1]` marker, which a second `normalize`
removes: `normalize("[[1]1]") = "[1]"` but `normalize(normalize("[[1]1]")) = ""`. -/
theorem normalize_tag_not_idempotent :
    normalize_tag "[[1]1]".toList = "[1]".toList ∧
    normalize_tag (normalize_tag "[[1]1]".toList) = [] ∧
    normalize_tag (normalize_tag "[[1]1]".toList) ≠ normalize_tag "[[1]1]".toList := by
  decide

/-- C3 (amended): normalization is idempotent on every string whose normalized
form contains no residual `[` + digit + `]` marker (equivalently, on which
bracket removal has reached a fixpoint) — in particular on all strings where
deleting a marker does not splice together a new one.  It is not idempotent in
general (`normalize_tag_not_idempotent`). -/
theorem normalize_tag_idempotent_of_no_marker (s : List Char)
    (h : removeBrackets (normalize_tag s) = normalize_tag s) :
    normalize_tag (normalize_tag s) = normalize_tag s := by
  conv_lhs => rw [normalize_tag]
  rw [h, replaceDots_eq_self (normalize_tag_no_dot s)]
  conv_lhs => rw [normalize_tag]
  conv_rhs => rw [normalize_tag]
  exact pyStrip_idempotent _

/-- Witness for `normalize_tag_idempotent_of_no_marker` at the spec's own
example `"Worker[2].Startup"`. -/
theorem normalize_tag_idempotent_witness :
    removeBrackets (normalize_tag "Worker[2].Startup".toList) =
        normalize_tag "Worker[2].Startup".toList ∧
    normalize_tag (normalize_tag "Worker[2].Startup".toList) =
        normalize_tag "Worker[2].Startup".toList :=
  ⟨by decide, normalize_tag_idempotent_of_no_marker _ (by decide)⟩

/-- C6 (counterexample): the tick-to-instant scaling is *not* linear.
`ticks = 5` is exactly the double `0.5` microseconds, which `timedelta` rounds
to `0` (half to even), while `ticks = 10` gives `1` microsecond: doubling the
ticks from 5 to 10 does not double the elapsed microseconds since the epoch. -/
theorem occurred_at_doubling_fails :
    LogRecord.occurred_at ⟨5, []⟩ = 0 ∧
    LogRecord.occurred_at ⟨10, []⟩ = 1 ∧
    LogRecord.occurred_at ⟨10, []⟩ ≠ 2 * LogRecord.occurred_at ⟨5, []⟩ := by
  decide

/-- C6 (amended): `ticks = 0` maps exactly to the epoch `0001-01-01T00:00:00Z`
(elapsed microseconds `0`), and on microsecond-aligned tick counts below the
binary64 significand limit the conversion is exact and linear: for
`1 ≤ k < 2 ^ 53`, `10 * k` ticks give exactly `k` elapsed microseconds, and
doubling such a tick count (staying below the limit) doubles the elapsed
microseconds.  Beyond that the claim's `epoch + ticks / 10 microseconds` reading
fails even on multiples of 10 (see `ticksToMicros_float_artifacts`), and off
multiples of 10 it fails outright (`occurred_at_doubling_fails`). -/
theorem occurred_at_epoch_and_scaling :
    LogRecord.occurred_at ⟨0, []⟩ = 0 ∧
    (∀ k : ℕ, 1 ≤ k → k < 2 ^ 53 → LogRecord.occurred_at ⟨10 * k, []⟩ = k) ∧
    (∀ k : ℕ, 2 * k < 2 ^ 53 → LogRecord.occurred_at ⟨2 * (10 * k), []⟩ =
      2 * LogRecord.occurred_at ⟨10 * k, []⟩) := by
  have hexact : ∀ k : ℕ, 1 ≤ k → k < 2 ^ 53 → LogRecord.occurred_at ⟨10 * k, []⟩ = k := by
    intro k hk1 hk2
    show (ticksToMicros (10 * k) : ℤ) = k
    rw [ticksToMicros_exact k hk1 hk2]
  refine ⟨by decide, hexact, fun k hk => ?_⟩
  rcases Nat.eq_zero_or_pos k with rfl | hpos
  · show (ticksToMicros (2 * (10 * 0)) : ℤ) = 2 * (ticksToMicros (10 * 0) : ℤ)
    norm_num [ticksToMicros]
  · have e1 : LogRecord.occurred_at ⟨10 * (2 * k), []⟩ = (2 * k : ℕ) :=
      hexact (2 * k) (by omega) hk
    have e2 : LogRecord.occurred_at ⟨10 * k, []⟩ = k := hexact k hpos (by omega)
    rw [show 2 * (10 * k) = 10 * (2 * k) by ring, e1, e2]
    push_cast
    ring

/-- Witness for `occurred_at_epoch_and_scaling`: 70 ticks are exactly 7
microseconds, and doubling 30 ticks to 60 doubles the elapsed microseconds. -/
theorem occurred_at_epoch_and_scaling_witness :
    (1 ≤ 7 ∧ 7 < 2 ^ 53 ∧ LogRecord.occurred_at ⟨10 * 7, []⟩ = 7) ∧
    (2 * 3 < 2 ^ 53 ∧ LogRecord.occurred_at ⟨2 * (10 * 3), []⟩ =
      2 * LogRecord.occurred_at ⟨10 * 3, []⟩) :=
  ⟨⟨by norm_num, by norm_num,
      occurred_at_epoch_and_scaling.2.1 7 (by norm_num) (by norm_num)⟩,
    ⟨by norm_num, occurred_at_epoch_and_scaling.2.2 3 (by norm_num)⟩⟩

/-- Sanity check that the clock model reproduces CPython's binary64 artifacts.
For `ticks = 11258999068426254` the exact quotient is `1125899906842625.4`, but
doubles near `2 ^ 50` are spaced `0.25` apart, so correctly rounded division
returns exactly `…625.5` and `timedelta`'s half-to-even rounding yields
`1125899906842626` — one more than half-even rounding of the exact quotient
would give.  For `ticks = 10 * (2 ^ 53 + 1) = 90071992547409930` the quotient
`2 ^ 53 + 1` is not representable and rounds (ties to even) down to `2 ^ 53 =
9007199254740992`, so even a multiple of 10 misses its exact microsecond
count.  Both values match what CPython produces. -/
theorem ticksToMicros_float_artifacts :
    ticksToMicros 11258999068426254 = 1125899906842626 ∧
    ticksToMicros 90071992547409930 = 9007199254740992 := by
  constructor
  · have ha : natLog2 11258999068426254 = 53 := natLog2_eq (by norm_num) (by norm_num)
    have hE : binExpDiv10 11258999068426254 = 50 := by
      rw [binExpDiv10, ha, if_pos (by norm_num)]
      decide
    have e1 : ((52 : ℤ) - 50).toNat = 2 := by decide
    have e2 : ((50 : ℤ) - 52).toNat = 0 := by decide
    have hsig : sigDiv10 11258999068426254 = 4503599627370502 := by
      rw [sigDiv10, hE, e1, e2]
      norm_num [rne]
    rw [ticksToMicros, if_neg (by norm_num), hsig, hE, e1, e2]
    norm_num [rne]
  · have ha : natLog2 90071992547409930 = 56 := natLog2_eq (by norm_num) (by norm_num)
    have hE : binExpDiv10 90071992547409930 = 53 := by
      rw [binExpDiv10, ha, if_pos (by norm_num)]
      decide
    have e1 : ((52 : ℤ) - 53).toNat = 0 := by decide
    have e2 : ((53 : ℤ) - 52).toNat = 1 := by decide
    have hsig : sigDiv10 90071992547409930 = 4503599627370496 := by
      rw [sigDiv10, hE, e1, e2]
      norm_num [rne]
    rw [ticksToMicros, if_neg (by norm_num), hsig, hE, e1, e2]
    norm_num [rne]

/-- C7: the Header Matcher recognizes a message exactly when it starts with one
of the prefixes `"info: "`, `"warn: "`, `"fail: "`; on a match it returns the
matched level together with the remainder of the message after the 6-character
prefix; and no message starts with more than one of the prefixes, so the fixed
check order cannot affect the result. -/
theorem entry_header_characterization :
    ∀ r : LogRecord,
      (r.entry_header.isSome ↔ ∃ l : Level, (headerMark l).isPrefixOf r.message = true) ∧
      (∀ l : Level, (headerMark l).isPrefixOf r.message = true →
        r.entry_header = some ⟨l, r.message.drop 6⟩) ∧
      (∀ l l' : Level, (headerMark l).isPrefixOf r.message = true →
        (headerMark l').isPrefixOf r.message = true → l = l') := by
  intro r
  refine ⟨⟨?_, ?_⟩, fun l hl => matchHeader_eq_of_isPrefixOf hl,
    fun l l' h h' => headerMark_exclusive h h'⟩
  · intro hs
    unfold LogRecord.entry_header matchHeader at hs
    split_ifs at hs with h1 h2 h3
    · exact ⟨.info, h1⟩
    · exact ⟨.warn, h2⟩
    · exact ⟨.fail, h3⟩
    · simp at hs
  · rintro ⟨l, hl⟩
    have : r.entry_header = some ⟨l, r.message.drop 6⟩ := matchHeader_eq_of_isPrefixOf hl
    rw [this]
    rfl

/-- Witness for `entry_header_characterization`: the record `(300, "warn: Boot")`
is recognized with level `warn` and remainder `"Boot"`. -/
theorem entry_header_characterization_witness :
    (headerMark Level.warn).isPrefixOf "warn: Boot".toList = true ∧
    LogRecord.entry_header ⟨300, "warn: Boot".toList⟩ = some ⟨Level.warn, "Boot".toList⟩ :=
  ⟨by decide,
    (entry_header_characterization ⟨300, "warn: Boot".toList⟩).2.1 Level.warn (by decide)⟩

theorem lookupGroups_addToGroups (g : List (List Char × List LogEntry)) (e : LogEntry)
    (t : List Char) :
    lookupGroups (addToGroups g e) t =
      lookupGroups g t ++ if e.tag = t then [e] else [] := by
  induction g with
  | nil => simp [addToGroups, lookupGroups]
  | cons kv rest ih =>
    obtain ⟨k, v⟩ := kv
    by_cases hk : k = e.tag
    · subst hk
      by_cases ht : e.tag = t <;> simp [addToGroups, lookupGroups, ht]
    · by_cases ht : k = t
      · subst ht
        have hne : ¬e.tag = k := fun h => hk h.symm
        simp [addToGroups, lookupGroups, hk, hne]
      · simp [addToGroups, lookupGroups, hk, ht, ih]

theorem lookupGroups_foldl (entries : List LogEntry) :
    ∀ (g : List (List Char × List LogEntry)) (t : List Char),
      lookupGroups (entries.foldl addToGroups g) t =
        lookupGroups g t ++ entries.filter fun e => decide (e.tag = t) := by
  induction entries with
  | nil => simp
  | cons e rest ih =>
    intro g t
    rw [List.foldl_cons, ih, lookupGroups_addToGroups, List.append_assoc, List.filter_cons]
    by_cases ht : e.tag = t <;> simp [ht]

/-- C8: for every input sequence of closed entries and every tag `t`, the group
stored under `t` by `split_records` is exactly the subsequence of input entries
whose tag is `t`, in arrival order (`List.filter` preserves relative order). -/
theorem split_records_filter (entries : List LogEntry) (t : List Char) :
    lookupGroups (split_records entries) t =
      entries.filter fun e => decide (e.tag = t) := by
  rw [split_records, lookupGroups_foldl]
  simp [lookupGroups]

theorem convertLoop_some_length (rs : List LogRecord) :
    ∀ (o : OpenedLogEntry) (es : List LogEntry),
      convertLoop (some o) rs = .ok es → es.length = countHeaders rs := by
  induction rs with
  | nil =>
    intro o es h
    simp only [convertLoop] at h
    cases h
    simp [countHeaders]
  | cons r rest ih =>
    intro o es h
    cases hh : r.entry_header with
    | none =>
      simp only [convertLoop, hh] at h
      have := ih _ _ h
      simp [countHeaders, List.countP_cons, hh] at this ⊢
      exact this
    | some header =>
      simp only [convertLoop, hh] at h
      cases hc : o.close with
      | error err => rw [hc] at h; cases h
      | ok e =>
        rw [hc] at h
        cases hrec : convertLoop (some (.init header r.occurred_at)) rest with
        | error err => rw [hrec] at h; cases h
        | ok es' =>
          rw [hrec] at h
          cases h
          have := ih _ _ hrec
          simp [countHeaders, List.countP_cons, hh] at this ⊢
          omega

theorem convertLoop_none_length (rs : List LogRecord) (es : List LogEntry)
    (h : convertLoop none rs = .ok es) :
    (es = [] ∧ countHeaders rs = 0) ∨ es.length + 1 = countHeaders rs := by
  cases rs with
  | nil =>
    cases h
    exact Or.inl ⟨rfl, rfl⟩
  | cons r rest =>
    cases hh : r.entry_header with
    | none =>
      simp only [convertLoop, hh] at h
      exact absurd h (by simp)
    | some header =>
      simp only [convertLoop, hh] at h
      have := convertLoop_some_length rest _ _ h
      right
      simp [countHeaders, List.countP_cons, hh] at this ⊢
      omega

/-- C1 (code evaluation): the loop of `convert_records` ends without closing or
emitting the entry that is still open, so the final entry of every input is
silently dropped.  Empty input does yield zero entries and no error, but on
`[(100, "info: Boot"), (200, "Started ok")]` — where the spec requires the open
entry (one accumulated line, so the emptiness check would pass) to be closed and
emitted at end of input — the code emits nothing.  The first conjunct shows the
drop abstractly: an open accumulator at end of input produces no output at all,
with no emptiness check. -/
theorem convert_records_eof_drops_open_entry :
    (∀ o : OpenedLogEntry, convertLoop (some o) [] = .ok []) ∧
    convert_records [] = .ok [] ∧
    convert_records [⟨100, "info: Boot".toList⟩, ⟨200, "Started ok".toList⟩] = .ok [] := by
  refine ⟨fun o => rfl, rfl, by decide⟩

/-- C2 (code evaluation): whenever `convert_records` succeeds, the number of
emitted entries is *one less* than the number of header lines (or both are zero),
because the last opened entry is never emitted; on Scenario A's four records
(two headers) exactly one entry comes out, refuting `emitted = headers`. -/
theorem convert_records_count_mismatch :
    (∀ (source : List LogRecord) (es : List LogEntry), convert_records source = .ok es →
      (es = [] ∧ countHeaders source = 0) ∨ es.length + 1 = countHeaders source) ∧
    countHeaders [⟨100, "info: Boot".toList⟩, ⟨200, "Started ok".toList⟩,
      ⟨300, "warn: Boot".toList⟩, ⟨400, "Retrying".toList⟩] = 2 ∧
    convert_records [⟨100, "info: Boot".toList⟩, ⟨200, "Started ok".toList⟩,
      ⟨300, "warn: Boot".toList⟩, ⟨400, "Retrying".toList⟩] =
      .ok [⟨10, "Boot".toList, Level.info, "Started ok".toList⟩] := by
  exact ⟨fun source es h => convertLoop_none_length source es h, by decide, by decide⟩

/-- Witness for `convert_records_count_mismatch` at Scenario A's input. -/
theorem convert_records_count_mismatch_witness :
    convert_records [⟨100, "info: Boot".toList⟩, ⟨200, "Started ok".toList⟩,
        ⟨300, "warn: Boot".toList⟩, ⟨400, "Retrying".toList⟩] =
      .ok [⟨10, "Boot".toList, Level.info, "Started ok".toList⟩] ∧
    ((([⟨10, "Boot".toList, Level.info, "Started ok".toList⟩] : List LogEntry) = [] ∧
        countHeaders [⟨100, "info: Boot".toList⟩, ⟨200, "Started ok".toList⟩,
          ⟨300, "warn: Boot".toList⟩, ⟨400, "Retrying".toList⟩] = 0) ∨
      ([⟨10, "Boot".toList, Level.info, "Started ok".toList⟩] : List LogEntry).length + 1 =
        countHeaders [⟨100, "info: Boot".toList⟩, ⟨200, "Started ok".toList⟩,
          ⟨300, "warn: Boot".toList⟩, ⟨400, "Retrying".toList⟩]) :=
  ⟨by decide, convert_records_count_mismatch.1 _ _ (by decide)⟩

/-- C4: closing an entry with zero accumulated message lines fails with the
`EmptyEntryError`-style `ValueError`, and the whole conversion of Scenario C's
input `[(10, "info: A"), (20, "info: B")]` aborts with that error (the first
entry, tag `A` at 1 microsecond, is closed by the second header with no lines). -/
theorem close_empty_messages_error :
    (∀ o : OpenedLogEntry, o.messages = [] →
      o.close = .error (.emptyEntry o.tag o.occurred_at)) ∧
    convert_records [⟨10, "info: A".toList⟩, ⟨20, "info: B".toList⟩] =
      .error (.emptyEntry "A".toList 1) := by
  refine ⟨fun o h => ?_, by decide⟩
  simp [OpenedLogEntry.close, h]

/-- Witness for `close_empty_messages_error` on a concrete empty accumulator. -/
theorem close_empty_messages_error_witness :
    ((⟨Level.info, "A".toList, 1, []⟩ : OpenedLogEntry).messages = []) ∧
    (⟨Level.info, "A".toList, 1, []⟩ : OpenedLogEntry).close =
      .error (.emptyEntry "A".toList 1) :=
  ⟨rfl, close_empty_messages_error.1 ⟨Level.info, "A".toList, 1, []⟩ rfl⟩

/-- C5: an input with zero header lines either is empty (zero entries, no error)
or fails with the orphan-continuation `ValueError` on its first record; and in
general a continuation-shaped record arriving while no entry is open raises that
fatal error rather than being dropped. -/
theorem convert_records_no_header :
    (∀ source : List LogRecord, countHeaders source = 0 →
      (source = [] ∧ convert_records source = .ok []) ∨
      (∃ r rest, source = r :: rest ∧
        convert_records source = .error (.orphan r.message))) ∧
    (∀ (r : LogRecord) (rest : List LogRecord), r.entry_header = none →
      convertLoop none (r :: rest) = .error (.orphan r.message)) := by
  have horphan : ∀ (r : LogRecord) (rest : List LogRecord), r.entry_header = none →
      convertLoop none (r :: rest) = .error (.orphan r.message) := by
    intro r rest h
    simp [convertLoop, h]
  refine ⟨?_, horphan⟩
  intro source h
  cases source with
  | nil => exact Or.inl ⟨rfl, rfl⟩
  | cons r rest =>
    have hr : r.entry_header = none := by
      by_contra hne
      have hs : r.entry_header.isSome = true := Option.ne_none_iff_isSome.mp hne
      rw [countHeaders, List.countP_cons, hs] at h
      simp at h
    exact Or.inr ⟨r, rest, rfl, horphan r rest hr⟩

/-- Witness for `convert_records_no_header` at Scenario B's input
`[(50, "stray line")]`. -/
theorem convert_records_no_header_witness :
    countHeaders [⟨50, "stray line".toList⟩] = 0 ∧
    ((([⟨50, "stray line".toList⟩] : List LogRecord) = [] ∧
        convert_records [⟨50, "stray line".toList⟩] = .ok []) ∨
      (∃ r rest, ([⟨50, "stray line".toList⟩] : List LogRecord) = r :: rest ∧
        convert_records [⟨50, "stray line".toList⟩] = .error (.orphan r.message))) :=
  ⟨by decide, convert_records_no_header.1 [⟨50, "stray line".toList⟩] (by decide)⟩

/-- C9: tag normalization can yield the empty string (`"[1]"` and a
whitespace-only remainder both normalize to `""`), a full conversion can emit a
`LogEntry` whose tag is empty, and the grouped mapping then carries the empty
string as a key. -/
theorem normalize_tag_empty_tag_possible :
    normalize_tag "[1]".toList = [] ∧
    normalize_tag "   ".toList = [] ∧
    convert_records [⟨0, "info: [1]".toList⟩, ⟨10, "x".toList⟩,
        ⟨20, "info: B".toList⟩, ⟨30, "y".toList⟩] =
      .ok [⟨0, [], Level.info, "x".toList⟩] ∧
    lookupGroups (split_records [⟨0, [], Level.info, "x".toList⟩]) [] =
      [⟨0, [], Level.info, "x".toList⟩] := by
  decide

/-- C10: closing succeeds whenever at least one line was accumulated, producing
the newline-join of the lines stripped of surrounding whitespace; with two
whitespace-only accumulated lines the resulting message is the empty string, so
a nonzero line count does not imply a nonempty message. -/
theorem close_nonempty_messages :
    (∀ o : OpenedLogEntry, o.messages ≠ [] →
      o.close = .ok ⟨o.occurred_at, o.tag, o.level,
        pyStrip (List.intercalate "\n".toList o.messages)⟩) ∧
    (⟨Level.info, "T".toList, 0, [" ".toList, " \t".toList]⟩ : OpenedLogEntry).close =
      .ok ⟨0, "T".toList, Level.info, []⟩ := by
  refine ⟨fun o h => ?_, by decide⟩
  simp [OpenedLogEntry.close, h]

/-- Witness for `close_nonempty_messages` on a concrete one-line accumulator. -/
theorem close_nonempty_messages_witness :
    ((⟨Level.warn, "W".toList, 3, ["hi".toList]⟩ : OpenedLogEntry).messages ≠ []) ∧
    (⟨Level.warn, "W".toList, 3, ["hi".toList]⟩ : OpenedLogEntry).close =
      .ok ⟨3, "W".toList, Level.warn,
        pyStrip (List.intercalate "\n".toList ["hi".toList])⟩ :=
  ⟨by decide, close_nonempty_messages.1 ⟨Level.warn, "W".toList, 3, ["hi".toList]⟩ (by decide)⟩

/-- Sanity check of the spec's worked tag-stripping example. -/
theorem normalize_tag_worker_startup :
    normalize_tag "Worker[2].Startup".toList = "Worker_Startup".toList := by
  decide

end AzLogConvert
